import Mathlib

/-!
Verification of the matching/merge engine of `flathub_mapper.py`
(Avunu/nixos-appstream-generator).

The Python program is embedded shallowly:

* Python `dict[str, V]` becomes `Dict V := List (String × V)`, an
  insertion-ordered association list.  A genuine Python dict never holds a
  duplicate key; theorems that need that fact take a `Nodup` hypothesis on
  the key list.  `d[k] = v` on an existing key replaces the value in place
  (position preserved); a fresh key is appended at the end — `Dict.insert`
  mirrors this.
* XML `Element` values (from `xml.etree.ElementTree`) become the inductive
  `XmlElement` with tag, attribute list, optional text, optional tail and
  child list.  `ET.tostring`/`ET.fromstring` round-tripping is the identity
  on this representation, so a component's `raw_xml` field is stored as the
  `XmlElement` itself.
* Python floats appear only as the literals `1.0` and `0.8` (confidence
  scores) and in the coverage percentage; they are modelled as `Rat`,
  which is exact on every value the program produces.
-/

set_option autoImplicit false

namespace FlathubMapper

/-- Insertion-ordered string-keyed map, modelling Python `dict[str, V]`. -/
abbrev Dict (α : Type) := List (String × α)

namespace Dict

/-- `d[k]` / `k in d`: first binding of `k` (Python dicts hold at most one). -/
def find? {α : Type} : Dict α → String → Option α
  | [], _ => none
  | (k', v) :: rest, k => if k' = k then some v else find? rest k

/-- Python `k in d`. -/
def contains {α : Type} (d : Dict α) (k : String) : Bool :=
  (find? d k).isSome

/-- Python `d.get(k, default)`. -/
def getD {α : Type} (d : Dict α) (k : String) (default : α) : α :=
  (find? d k).getD default

/-- Python `d[k] = v`: replace in place if the key exists, else append. -/
def insert {α : Type} (d : Dict α) (k : String) (v : α) : Dict α :=
  if contains d k then d.map (fun p => if p.1 = k then (k, v) else p)
  else d ++ [(k, v)]

/-- The keys of the map, in iteration order. -/
def keys {α : Type} (d : Dict α) : List String :=
  d.map Prod.fst

end Dict

/-- `NixPackage` dataclass: a nixpkgs package with desktop file info. -/
structure NixPackage where
  attr : String
  version : String
  desktop_ids : List String := []
  deriving Repr, DecidableEq

/-- XML element in the style of `xml.etree.ElementTree.Element`:
tag, attributes (a Python dict, hence ordered and duplicate-free in
practice), optional text, optional tail, and child elements. -/
inductive XmlElement where
  | mk (tag : String) (attrs : List (String × String)) (text : Option String)
      (tail : Option String) (children : List XmlElement)
  deriving Repr

namespace XmlElement

def tag : XmlElement → String
  | mk t _ _ _ _ => t

def attrs : XmlElement → List (String × String)
  | mk _ a _ _ _ => a

def text : XmlElement → Option String
  | mk _ _ tx _ _ => tx

def tail : XmlElement → Option String
  | mk _ _ _ tl _ => tl

def children : XmlElement → List XmlElement
  | mk _ _ _ _ cs => cs

@[simp] theorem tag_mk (t : String) (a : List (String × String)) (tx tl : Option String)
    (cs : List XmlElement) : (mk t a tx tl cs).tag = t := rfl

@[simp] theorem attrs_mk (t : String) (a : List (String × String)) (tx tl : Option String)
    (cs : List XmlElement) : (mk t a tx tl cs).attrs = a := rfl

@[simp] theorem text_mk (t : String) (a : List (String × String)) (tx tl : Option String)
    (cs : List XmlElement) : (mk t a tx tl cs).text = tx := rfl

@[simp] theorem tail_mk (t : String) (a : List (String × String)) (tx tl : Option String)
    (cs : List XmlElement) : (mk t a tx tl cs).tail = tl := rfl

@[simp] theorem children_mk (t : String) (a : List (String × String)) (tx tl : Option String)
    (cs : List XmlElement) : (mk t a tx tl cs).children = cs := rfl

/-- Python `elem.get(key)`: first attribute with that name, else `None`. -/
def getAttr (e : XmlElement) (k : String) : Option String :=
  (e.attrs.find? (fun p => p.1 = k)).map Prod.snd

/-- Python `elem.get(key, "")`. -/
def getAttrD (e : XmlElement) (k : String) : String :=
  (e.getAttr k).getD ""

/-- Python `elem.set(key, value)` on the attribute dict: replace in place
if present, else append. -/
def setAttr (e : XmlElement) (k v : String) : XmlElement :=
  mk e.tag
    (if e.attrs.any (fun p => p.1 = k)
      then e.attrs.map (fun p => if p.1 = k then (k, v) else p)
      else e.attrs ++ [(k, v)])
    e.text e.tail e.children

/-- Replace the text of an element (Python `elem.text = s`). -/
def setText (e : XmlElement) (s : String) : XmlElement :=
  mk e.tag e.attrs (some s) e.tail e.children

/-- Replace the child list of an element. -/
def withChildren (e : XmlElement) (cs : List XmlElement) : XmlElement :=
  mk e.tag e.attrs e.text e.tail cs

/-- Python `elem.findtext(tag, default)`: text of the first direct child
with the given tag (the empty string if that child has no text), or the
default when no such child exists. -/
def findtextD (e : XmlElement) (t default : String) : String :=
  match e.children.find? (fun c => c.tag = t) with
  | some c => (c.text).getD ""
  | none => default

/-- All proper descendants of an element, in document (preorder) order:
what `findall(".//tag")` iterates over before filtering by tag. -/
def descendants : XmlElement → List XmlElement
  | mk _ _ _ _ cs => cs.attach.flatMap (fun c => c.1 :: descendants c.1)
decreasing_by
  simp_wf
  have h := List.sizeOf_lt_of_mem c.2
  omega

/-- The element together with its descendants, in document order. -/
def allElements (e : XmlElement) : List XmlElement :=
  e :: e.descendants

/-- Python `"".join(elem.itertext())`: the concatenation of the text of the
element and, recursively, the text and tail of every descendant, in
document order. -/
def itertext : XmlElement → String
  | mk _ _ tx _ cs =>
      cs.attach.foldl (fun acc c => acc ++ itertext c.1 ++ (c.1.tail).getD "") (tx.getD "")
decreasing_by
  simp_wf
  have h := List.sizeOf_lt_of_mem c.2
  omega

end XmlElement

/-- `FlathubComponent` dataclass: an AppStream component from Flathub.
`raw_xml` holds the original component element (in Python a serialized
string; serialization then re-parsing is the identity, so the element
itself is kept). -/
structure FlathubComponent where
  id : String
  name : String
  summary : String
  description : String
  categories : List String
  keywords : List String
  screenshots : List String
  icon_url : Option String
  homepage : Option String
  license : Option String
  developer_name : Option String
  raw_xml : XmlElement
  deriving Repr

/-- `Mapping` dataclass: maps a Flathub component to a nixpkgs package.
Confidence is `1.0` or `0.8` in the source; floats are modelled as `Rat`. -/
structure Mapping where
  flathub_id : String
  nixpkgs_attr : String
  nixpkgs_version : String
  confidence : Rat
  deriving Repr, DecidableEq

/-- `FLATHUB_ICONS_BASE_URL` constant. -/
def FLATHUB_ICONS_BASE_URL : String :=
  "https://dl.flathub.org/repo/appstream/x86_64/icons"

/-- Python `s.lower()`, characterwise (the identifiers the program
lowercases are ASCII, where `Char.toLower` agrees with Python). -/
def py_lower (s : String) : String :=
  ⟨s.data.map Char.toLower⟩

/-- Python `s.strip()`: remove whitespace from both ends. -/
def py_strip (s : String) : String :=
  ⟨((s.data.dropWhile Char.isWhitespace).reverse.dropWhile Char.isWhitespace).reverse⟩

/-- Python `s.endswith(suf)`.  When `s` is shorter than `suf` the dropped
list still differs from `suf` (different lengths), so no length guard is
needed. -/
def py_endswith (s suf : String) : Bool :=
  s.data.drop (s.data.length - suf.data.length) == suf.data

/-- Python `s.split(sep)` for a one-character separator, on the character
list: always returns at least one (possibly empty) group. -/
def splitChar (sep : Char) : List Char → List (List Char)
  | [] => [[]]
  | c :: cs =>
      match splitChar sep cs with
      | [] => [[]]
      | g :: gs => if c = sep then [] :: g :: gs else (c :: g) :: gs

/-- Python `s.removesuffix(suf)`: drop `suf` from the end when it is a
non-empty suffix of `s`, else return `s` unchanged. -/
def removesuffix (s suf : String) : String :=
  if suf ≠ "" ∧ py_endswith s suf then ⟨s.data.take (s.data.length - suf.data.length)⟩
  else s

/-- Python `id_parts[-1]` after `id_parts = flathub_id.split(".")`:
`split` never returns an empty list, so this is the last dot-separated
segment (possibly empty). -/
def lastSegment (s : String) : String :=
  ((splitChar '.' s.data).getLastD []).asString

end FlathubMapper

namespace FlathubMapper

/-- The icon-resolution loop of `parse_flathub_appstream`
(`for icon in component.findall("icon"): ...`): walk the direct `icon`
children in document order; the first one that is `remote` with non-empty
text yields that text, the first one that is `cached` with non-empty text
yields the composed Flathub URL; the loop `break`s on whichever comes
first. -/
def resolve_icon : List XmlElement → Option String
  | [] => none
  | icon :: rest =>
      if icon.getAttr "type" = some "remote" ∧ icon.text.getD "" ≠ "" then
        icon.text
      else if icon.getAttr "type" = some "cached" ∧ icon.text.getD "" ≠ "" then
        some (FLATHUB_ICONS_BASE_URL ++ "/128x128/" ++ icon.text.getD "")
      else
        resolve_icon rest

/-- The per-icon step of `resolve_icon`: what a single iteration of the
loop would produce if it fires (`none` when the loop would continue). -/
def icon_step (icon : XmlElement) : Option String :=
  if icon.getAttr "type" = some "remote" ∧ icon.text.getD "" ≠ "" then
    icon.text
  else if icon.getAttr "type" = some "cached" ∧ icon.text.getD "" ≠ "" then
    some (FLATHUB_ICONS_BASE_URL ++ "/128x128/" ++ icon.text.getD "")
  else
    none

/-- The body of the parse loop, fields of the constructed
`FlathubComponent` (lines 116–188 of the source), given the component
element and the suffix-stripped id. -/
def mkComponent (c : XmlElement) (base_id : String) : FlathubComponent :=
  { id := base_id
    name := c.findtextD "name" ""
    summary := c.findtextD "summary" ""
    description :=
      match c.children.find? (fun d => d.tag = "description") with
      | some d => py_strip d.itertext
      | none => ""
    categories :=
      ((c.descendants.filter (fun d => d.tag = "category")).filterMap
        (fun d => d.text)).filter (fun t => t ≠ "")
    keywords :=
      ((c.descendants.filter (fun d => d.tag = "keyword")).filterMap
        (fun d => d.text)).filter (fun t => t ≠ "")
    screenshots :=
      ((((c.descendants.filter (fun d => d.tag = "screenshot")).flatMap
          (fun s => s.children.filter (fun i => i.tag = "image"))).filter
        (fun i => i.text.getD "" ≠ "" ∧ i.getAttr "type" = some "source")).filterMap
        (fun i => i.text))
    icon_url := resolve_icon (c.children.filter (fun i => i.tag = "icon"))
    homepage :=
      (c.children.find? (fun u => u.tag = "url" ∧ u.getAttr "type" = some "homepage")).bind
        (fun u => u.text)
    license := some (c.findtextD "project_license" "")
    developer_name := some (c.findtextD "developer_name" "")
    raw_xml := c }

/-- One iteration of the parse loop (lines 112–188): skip entries whose
type is not `desktop`/`desktop-application` (`continue`), skip entries
whose stripped `id` text is empty (`continue`), otherwise strip a
`.desktop` suffix and store the component under the resulting key. -/
def parse_step (acc : Dict FlathubComponent) (c : XmlElement) : Dict FlathubComponent :=
  if c.getAttrD "type" = "desktop" ∨ c.getAttrD "type" = "desktop-application" then
    let comp_id := py_strip (c.findtextD "id" "")
    if comp_id ≠ "" then
      let base_id := removesuffix comp_id ".desktop"
      acc.insert base_id (mkComponent c base_id)
    else acc
  else acc

/-- `parse_flathub_appstream`, lines 111–191: fold over the `component`
elements of the feed (the result of `root.findall(".//component")`),
keeping only those of type `desktop` or `desktop-application` whose
trimmed `id` text is non-empty, stripping a `.desktop` suffix from the id
and inserting into the result dict (last occurrence wins). -/
def parse_flathub_appstream (comps : List XmlElement) : Dict FlathubComponent :=
  comps.foldl parse_step []

/-- The retention guard the parse loop applies to an entry: recognized
kind, non-empty stripped `id` text (tested before suffix-stripping). -/
def entry_retained (c : XmlElement) : Prop :=
  (c.getAttrD "type" = "desktop" ∨ c.getAttrD "type" = "desktop-application") ∧
  py_strip (c.findtextD "id" "") ≠ ""

instance (c : XmlElement) : Decidable (entry_retained c) := by
  unfold entry_retained; infer_instance

/-- The key a retained entry is stored under: its stripped `id` text with
a `.desktop` suffix removed. -/
def entry_key (c : XmlElement) : String :=
  removesuffix (py_strip (c.findtextD "id" "")) ".desktop"

/-- The curated branch of `create_mapping` (lines 417–429): a confidence-1
mapping when the component id is in the curated table and the resolved
attribute is in the package dict; `none` otherwise (the code then falls
through to the heuristic). -/
def curated_match (nixpkgs_packages : Dict NixPackage) (desktop_id_mapping : Dict String)
    (flathub_id : String) : Option Mapping :=
  match Dict.find? desktop_id_mapping flathub_id with
  | some nixpkgs_attr =>
      match Dict.find? nixpkgs_packages nixpkgs_attr with
      | some pkg =>
          some { flathub_id := flathub_id, nixpkgs_attr := nixpkgs_attr
                 nixpkgs_version := pkg.version, confidence := 1 }
      | none => none
  | none => none

/-- The heuristic branch of `create_mapping` (lines 431–445): lowercase
last dot-segment of the id, matched against the package dict, guarded by
`if app_name and app_name in nixpkgs_packages`. -/
def heuristic_match (nixpkgs_packages : Dict NixPackage) (flathub_id : String) :
    Option Mapping :=
  let app_name := py_lower (lastSegment flathub_id)
  if app_name ≠ "" then
    match Dict.find? nixpkgs_packages app_name with
    | some pkg =>
        some { flathub_id := flathub_id, nixpkgs_attr := app_name
               nixpkgs_version := pkg.version, confidence := (0.8 : Rat) }
    | none => none
  else none

/-- One iteration of the `create_mapping` loop for a single component id:
the curated rule fires first (`continue` in the source); otherwise the
heuristic rule is tried. -/
def matchComponent (nixpkgs_packages : Dict NixPackage) (desktop_id_mapping : Dict String)
    (flathub_id : String) : Option Mapping :=
  match curated_match nixpkgs_packages desktop_id_mapping flathub_id with
  | some m => some m
  | none => heuristic_match nixpkgs_packages flathub_id

/-- `create_mapping`, lines 401–448: iterate the Flathub components in
dict order, collecting the mapping (if any) produced for each. -/
def create_mapping (flathub_components : Dict FlathubComponent)
    (nixpkgs_packages : Dict NixPackage) (desktop_id_mapping : Dict String) :
    List Mapping :=
  flathub_components.filterMap
    (fun p => matchComponent nixpkgs_packages desktop_id_mapping p.1)

/-- The stub-seeding loop of `main` (lines 669–672): for every attribute
in the curated table's value set that is absent from the package dict,
insert a `NixPackage` stub with version `"unknown"`. -/
def seed_packages (nixpkgs_packages : Dict NixPackage) :
    List (String × String) → Dict NixPackage
  | [] => nixpkgs_packages
  | (_, attr) :: rest =>
      seed_packages
        (if Dict.contains nixpkgs_packages attr then nixpkgs_packages
         else nixpkgs_packages ++ [(attr, { attr := attr, version := "unknown" })])
        rest

/-- Python `elem.find(tag)` followed by in-place mutation of the found
child: replace the first child satisfying `p` by `f` of it, returning
`none` when no child matches (the caller then appends a new child, as
`ET.SubElement` does). -/
def updateFirst (p : XmlElement → Bool) (f : XmlElement → XmlElement) :
    List XmlElement → Option (List XmlElement)
  | [] => none
  | c :: cs =>
      if p c then some (f c :: cs)
      else (updateFirst p f cs).map (fun cs' => c :: cs')

/-- The icon filename extension chosen by the transformer (lines
516–518): `".svg"` when the component's resolved icon URL is a non-empty
string ending in `".svg"` (Python truthiness of `component.icon_url`),
else `".png"`. -/
def icon_ext (component : FlathubComponent) : String :=
  match component.icon_url with
  | some u => if u ≠ "" ∧ py_endswith u ".svg" then ".svg" else ".png"
  | none => ".png"

/-- The per-icon body of the transformation loop in
`transform_component_xml` (lines 508–519): icons whose `type` attribute is
`remote` or `cached` are retyped to `cached`, given width and height
`"128"`, and their text replaced by the component id plus the chosen
extension; other icons are left unchanged. -/
def rewrite_icon (component : FlathubComponent) (icon : XmlElement) : XmlElement :=
  if icon.getAttrD "type" = "remote" ∨ icon.getAttrD "type" = "cached" then
    (((icon.setAttr "type" "cached").setAttr "width" "128").setAttr "height"
        "128").setText (component.id ++ icon_ext component)
  else icon

/-- The fully cleared `releases` element rebuilt by the transformer: after
`releases.clear()` and `ET.SubElement(releases, "release")` with the
version attribute set, the first `releases` child is exactly this value
(whether it was found or freshly appended). -/
def nixpkgs_releases (version : String) : XmlElement :=
  XmlElement.mk "releases" [] none none
    [XmlElement.mk "release" [("version", version)] none none []]

/-- The pkgname step of `transform_component_xml` (lines 493–496): set
the text of the first `pkgname` child, appending a fresh one
(`ET.SubElement`) when absent. -/
def pkgname_step (mapping : Mapping) (cs : List XmlElement) : List XmlElement :=
  match updateFirst (fun c => c.tag = "pkgname")
      (fun c => c.setText mapping.nixpkgs_attr) cs with
  | some cs' => cs'
  | none => cs ++ [XmlElement.mk "pkgname" [] (some mapping.nixpkgs_attr) none []]

/-- The releases step of `transform_component_xml` (lines 499–505): clear
the first `releases` child and give it one `release` carrying the nixpkgs
version, appending the section when absent. -/
def releases_step (mapping : Mapping) (cs : List XmlElement) : List XmlElement :=
  match updateFirst (fun c => c.tag = "releases")
      (fun _ => nixpkgs_releases mapping.nixpkgs_version) cs with
  | some cs' => cs'
  | none => cs ++ [nixpkgs_releases mapping.nixpkgs_version]

/-- The icon loop of `transform_component_xml` (lines 508–519):
`elem.findall("icon")` visits the direct `icon` children only, so each
direct child is rewritten exactly when its tag is `icon`. -/
def icons_step (component : FlathubComponent) (cs : List XmlElement) : List XmlElement :=
  cs.map (fun c => if c.tag = "icon" then rewrite_icon component c else c)

/-- `transform_component_xml`, lines 477–521.  The `output_dir` parameter
of the source function is unused there and omitted.  Steps, in source
order: set (or append) the first `pkgname` child's text to the nixpkgs
attribute; clear the first `releases` child (or append one) and give it a
single `release` child carrying the nixpkgs version; rewrite each direct
`icon` child via `rewrite_icon`. -/
def transform_component_xml (component : FlathubComponent) (mapping : Mapping) :
    XmlElement :=
  component.raw_xml.withChildren
    (icons_step component
      (releases_step mapping (pkgname_step mapping component.raw_xml.children)))

/-- The placeholder `FlathubComponent("", "", "", "", [], [], [], None,
None, None, None, "")` used as the default of the report's display-name
lookup (line 596).  Its raw fragment is the empty element. -/
def placeholder_component : FlathubComponent :=
  { id := "", name := "", summary := "", description := "", categories := []
    keywords := [], screenshots := [], icon_url := none, homepage := none
    license := none, developer_name := none
    raw_xml := XmlElement.mk "" [] none none [] }

/-- The `flathub_name` field of a per-mapping report entry (line 596):
`flathub_components.get(m.flathub_id, placeholder).name`. -/
def report_flathub_name (flathub_components : Dict FlathubComponent) (m : Mapping) :
    String :=
  (Dict.getD flathub_components m.flathub_id placeholder_component).name

/-- The `coverage_percent` field of `generate_mapping_report` (line 589):
`len(mappings) / len(flathub_components) * 100 if flathub_components
else 0`, over exact rationals. -/
def coverage_percent (mappings : List Mapping)
    (flathub_components : Dict FlathubComponent) : Rat :=
  if flathub_components.isEmpty then 0
  else (mappings.length : Rat) / (flathub_components.length : Rat) * 100

/-- The `unmapped_popular` field of `generate_mapping_report`
(lines 600–604): of the first 100 components in dict order, those whose
key matches no mapping, projected to `(id, name)`, truncated to 20. -/
def unmapped_popular (mappings : List Mapping)
    (flathub_components : Dict FlathubComponent) : List (String × String) :=
  (((flathub_components.take 100).filter
      (fun p => ¬ mappings.any (fun m => m.flathub_id = p.1))).map
    (fun p => (p.2.id, p.2.name))).take 20

/-! ### Concrete fixtures used by counterexamples and witnesses -/

/-- A feed entry of recognized kind whose raw id is exactly `".desktop"`:
non-empty before suffix-stripping, empty after. -/
def dot_desktop_entry : XmlElement :=
  XmlElement.mk "component" [("type", "desktop")] none none
    [XmlElement.mk "id" [] (some ".desktop") none []]

/-- A feed entry carrying a `cached` icon before a `remote` one. -/
def cached_then_remote_entry : XmlElement :=
  XmlElement.mk "component" [("type", "desktop-application")] none none
    [XmlElement.mk "id" [] (some "org.x.App.desktop") none [],
     XmlElement.mk "icon" [("type", "cached")] (some "foo.png") none [],
     XmlElement.mk "icon" [("type", "remote")] (some "http://example.com/icon.png") none []]

/-- A component fragment whose only icon sits one level below the root
(inside an `info` child), out of reach of `elem.findall("icon")`. -/
def nested_icon_fragment : XmlElement :=
  XmlElement.mk "component" [] none none
    [XmlElement.mk "info" [] none none
      [XmlElement.mk "icon" [("type", "remote")] (some "x") none []]]

/-- The component owning `nested_icon_fragment`. -/
def nested_icon_component : FlathubComponent :=
  { placeholder_component with id := "a.b", raw_xml := nested_icon_fragment }

/-- A correspondence for `nested_icon_component`. -/
def nested_icon_mapping : Mapping :=
  { flathub_id := "a.b", nixpkgs_attr := "b", nixpkgs_version := "9", confidence := 1 }

/-- The spec's round-trip fragment: a direct `cached` icon, no
`pkgname`. -/
def round_trip_fragment : XmlElement :=
  XmlElement.mk "component" [("type", "desktop")] none none
    [XmlElement.mk "id" [] (some "a.b") none [],
     XmlElement.mk "icon" [("type", "cached")] (some "a.b.png") none []]

/-- The component owning `round_trip_fragment`. -/
def round_trip_component : FlathubComponent :=
  { placeholder_component with
      id := "a.b"
      icon_url := some (FLATHUB_ICONS_BASE_URL ++ "/128x128/a.b.png")
      raw_xml := round_trip_fragment }

/-! ### Association-list lemmas -/

theorem Dict.find?_isSome_of_mem_keys {α : Type} {d : Dict α} {k : String}
    (h : k ∈ Dict.keys d) : (Dict.find? d k).isSome := by
  induction d with
  | nil => simp [Dict.keys] at h
  | cons p rest ih =>
      obtain ⟨k', v⟩ := p
      by_cases hk : k' = k
      · simp [Dict.find?, hk]
      · simp only [Dict.keys, List.map_cons, List.mem_cons] at h
        rcases h with h | h
        · exact absurd h.symm hk
        · simpa [Dict.find?, hk] using ih h

theorem Dict.find?_mem {α : Type} {d : Dict α} {k : String} {v : α}
    (h : Dict.find? d k = some v) : (k, v) ∈ d := by
  induction d with
  | nil => simp [Dict.find?] at h
  | cons p rest ih =>
      obtain ⟨k', v'⟩ := p
      by_cases hk : k' = k
      · subst hk
        rw [Dict.find?, if_pos rfl] at h
        cases h
        exact List.mem_cons_self _ _
      · rw [Dict.find?, if_neg hk] at h
        exact List.mem_cons_of_mem _ (ih h)

theorem Dict.find?_eq_none_of_not_mem_keys {α : Type} {d : Dict α} {k : String}
    (h : k ∉ Dict.keys d) : Dict.find? d k = none := by
  induction d with
  | nil => rfl
  | cons p rest ih =>
      obtain ⟨k', v⟩ := p
      simp only [Dict.keys, List.map_cons, List.mem_cons, not_or] at h
      have hk : k' ≠ k := fun hh => h.1 hh.symm
      rw [Dict.find?, if_neg hk]
      exact ih h.2

theorem Dict.find?_append {α : Type} (d₁ d₂ : Dict α) (k : String) :
    Dict.find? (d₁ ++ d₂) k =
      match Dict.find? d₁ k with
      | some v => some v
      | none => Dict.find? d₂ k := by
  induction d₁ with
  | nil => rfl
  | cons p rest ih =>
      obtain ⟨k', v⟩ := p
      by_cases hk : k' = k
      · simp [Dict.find?, hk]
      · simpa [Dict.find?, hk] using ih

/-! ### Stub-seeding lemmas -/

theorem seed_packages_find?_of_isSome (r : List (String × String))
    {nixpkgs_packages : Dict NixPackage} {a : String}
    (h : (Dict.find? nixpkgs_packages a).isSome) :
    Dict.find? (seed_packages nixpkgs_packages r) a = Dict.find? nixpkgs_packages a := by
  induction r generalizing nixpkgs_packages with
  | nil => rfl
  | cons p rest ih =>
      obtain ⟨d, attr⟩ := p
      rw [seed_packages]
      by_cases hc : Dict.contains nixpkgs_packages attr
      · rw [if_pos hc]; exact ih h
      · rw [if_neg hc]
        obtain ⟨v, hv⟩ := Option.isSome_iff_exists.mp h
        have hkeep :
            Dict.find? (nixpkgs_packages ++ [(attr, { attr := attr, version := "unknown" })]) a
              = Dict.find? nixpkgs_packages a := by
          rw [Dict.find?_append, hv]
        exact (ih (by rw [hkeep]; exact h)).trans hkeep

theorem seed_packages_find?_stub (r : List (String × String))
    {nixpkgs_packages : Dict NixPackage} {a : String}
    (hmem : a ∈ r.map Prod.snd) (hnone : Dict.find? nixpkgs_packages a = none) :
    Dict.find? (seed_packages nixpkgs_packages r) a
      = some { attr := a, version := "unknown" } := by
  induction r generalizing nixpkgs_packages with
  | nil => simp at hmem
  | cons p rest ih =>
      obtain ⟨d, attr⟩ := p
      rw [seed_packages]
      by_cases hc : Dict.contains nixpkgs_packages attr
      · rw [if_pos hc]
        have hattr : a ≠ attr := by
          rintro rfl
          rw [Dict.contains, hnone] at hc
          simp at hc
        have hmem' : a ∈ rest.map Prod.snd := by
          simpa [hattr] using hmem
        exact ih hmem' hnone
      · rw [if_neg hc]
        by_cases ha : a = attr
        · subst ha
          have hfind :
              Dict.find? (nixpkgs_packages ++ [(a, { attr := a, version := "unknown" })]) a
                = some { attr := a, version := "unknown" } := by
            rw [Dict.find?_append, hnone]
            simp [Dict.find?]
          have hsome :
              (Dict.find?
                (nixpkgs_packages ++ [(a, { attr := a, version := "unknown" })]) a).isSome := by
            rw [hfind]; rfl
          rw [seed_packages_find?_of_isSome rest hsome]
          exact hfind
        · have hmem' : a ∈ rest.map Prod.snd := by
            simpa [ha] using hmem
          have hattr : attr ≠ a := fun h => ha h.symm
          have hnone' :
              Dict.find? (nixpkgs_packages ++ [(attr, { attr := attr, version := "unknown" })]) a
                = none := by
            rw [Dict.find?_append, hnone]
            simp [Dict.find?, hattr]
          exact ih hmem' hnone'

/-! ### Matcher lemmas -/

theorem curated_match_cases {nixpkgs_packages : Dict NixPackage}
    {desktop_id_mapping : Dict String} {k : String} {m : Mapping}
    (h : curated_match nixpkgs_packages desktop_id_mapping k = some m) :
    ∃ attr pkg, Dict.find? desktop_id_mapping k = some attr ∧
      Dict.find? nixpkgs_packages attr = some pkg ∧
      m = { flathub_id := k, nixpkgs_attr := attr, nixpkgs_version := pkg.version
            confidence := 1 } := by
  cases hr : Dict.find? desktop_id_mapping k with
  | none => simp [curated_match, hr] at h
  | some attr =>
      cases hn : Dict.find? nixpkgs_packages attr with
      | none => simp [curated_match, hr, hn] at h
      | some pkg =>
          simp only [curated_match, hr, hn, Option.some.injEq] at h
          exact ⟨attr, pkg, rfl, hn, h.symm⟩

theorem heuristic_match_cases {nixpkgs_packages : Dict NixPackage} {k : String}
    {m : Mapping} (h : heuristic_match nixpkgs_packages k = some m) :
    ∃ pkg, py_lower (lastSegment k) ≠ "" ∧
      Dict.find? nixpkgs_packages (py_lower (lastSegment k)) = some pkg ∧
      m = { flathub_id := k, nixpkgs_attr := py_lower (lastSegment k)
            nixpkgs_version := pkg.version, confidence := (0.8 : Rat) } := by
  by_cases ha : py_lower (lastSegment k) = ""
  · simp [heuristic_match, ha] at h
  · cases hn : Dict.find? nixpkgs_packages (py_lower (lastSegment k)) with
    | none => simp [heuristic_match, ha, hn] at h
    | some pkg =>
        simp only [heuristic_match, ha, hn, ne_eq, not_false_iff, if_true,
          Option.some.injEq] at h
        exact ⟨pkg, ha, rfl, h.symm⟩

theorem matchComponent_flathub_id {nixpkgs_packages : Dict NixPackage}
    {desktop_id_mapping : Dict String} {k : String} {m : Mapping}
    (h : matchComponent nixpkgs_packages desktop_id_mapping k = some m) :
    m.flathub_id = k := by
  unfold matchComponent at h
  cases hc : curated_match nixpkgs_packages desktop_id_mapping k with
  | some m' =>
      rw [hc] at h
      obtain ⟨attr, pkg, _, _, hm⟩ := curated_match_cases hc
      cases h
      rw [hm]
  | none =>
      rw [hc] at h
      obtain ⟨pkg, _, _, hm⟩ := heuristic_match_cases h
      rw [hm]

theorem matchComponent_confidence {nixpkgs_packages : Dict NixPackage}
    {desktop_id_mapping : Dict String} {k : String} {m : Mapping}
    (h : matchComponent nixpkgs_packages desktop_id_mapping k = some m) :
    m.confidence = 1 ∨ m.confidence = (0.8 : Rat) := by
  unfold matchComponent at h
  cases hc : curated_match nixpkgs_packages desktop_id_mapping k with
  | some m' =>
      rw [hc] at h
      obtain ⟨attr, pkg, _, _, hm⟩ := curated_match_cases hc
      cases h
      rw [hm]
      exact Or.inl rfl
  | none =>
      rw [hc] at h
      obtain ⟨pkg, _, _, hm⟩ := heuristic_match_cases h
      rw [hm]
      exact Or.inr rfl

theorem create_mapping_map_sublist (flathub_components : Dict FlathubComponent)
    (nixpkgs_packages : Dict NixPackage) (desktop_id_mapping : Dict String) :
    List.Sublist
      ((create_mapping flathub_components nixpkgs_packages desktop_id_mapping).map
        Mapping.flathub_id)
      (flathub_components.map Prod.fst) := by
  induction flathub_components with
  | nil => simp [create_mapping]
  | cons p rest ih =>
      obtain ⟨k, c⟩ := p
      cases hm : matchComponent nixpkgs_packages desktop_id_mapping k with
      | none =>
          simpa [create_mapping, List.filterMap_cons, hm] using ih.cons k
      | some m =>
          have hid := matchComponent_flathub_id hm
          simpa [create_mapping, List.filterMap_cons, hm, hid] using ih.cons₂ k

theorem create_mapping_filter_of_not_mem {flathub_components : Dict FlathubComponent}
    {nixpkgs_packages : Dict NixPackage} {desktop_id_mapping : Dict String} {id : String}
    (h : id ∉ flathub_components.map Prod.fst) :
    (create_mapping flathub_components nixpkgs_packages desktop_id_mapping).filter
      (fun m => m.flathub_id = id) = [] := by
  induction flathub_components with
  | nil => rfl
  | cons p rest ih =>
      obtain ⟨k, c⟩ := p
      simp only [List.map_cons, List.mem_cons, not_or] at h
      cases hm : matchComponent nixpkgs_packages desktop_id_mapping k with
      | none =>
          simpa [create_mapping, List.filterMap_cons, hm] using ih h.2
      | some m =>
          have hid := matchComponent_flathub_id hm
          have hne : ¬ (m.flathub_id = id) := by
            rw [hid]; exact fun hk => h.1 hk.symm
          simpa [create_mapping, List.filterMap_cons, hm, List.filter_cons, hne]
            using ih h.2

/-- Key matcher lemma: when the component dict has duplicate-free keys (as
every Python dict does), the correspondences produced for a given key are
exactly the singleton (or empty) result of `matchComponent` at that key. -/
theorem create_mapping_filter_eq {flathub_components : Dict FlathubComponent}
    {nixpkgs_packages : Dict NixPackage} {desktop_id_mapping : Dict String}
    {id : String} {comp : FlathubComponent}
    (hnd : (flathub_components.map Prod.fst).Nodup)
    (hmem : (id, comp) ∈ flathub_components) :
    (create_mapping flathub_components nixpkgs_packages desktop_id_mapping).filter
        (fun m => m.flathub_id = id)
      = (matchComponent nixpkgs_packages desktop_id_mapping id).toList := by
  induction flathub_components with
  | nil => simp at hmem
  | cons p rest ih =>
      obtain ⟨k, c⟩ := p
      simp only [List.map_cons, List.nodup_cons] at hnd
      rcases List.mem_cons.mp hmem with heq | hmem'
      · have hk : k = id := by cases heq; rfl
        subst hk
        have hrest : (create_mapping rest nixpkgs_packages desktop_id_mapping).filter
            (fun m => m.flathub_id = k) = [] :=
          create_mapping_filter_of_not_mem hnd.1
        cases hm : matchComponent nixpkgs_packages desktop_id_mapping k with
        | none =>
            simpa [create_mapping, List.filterMap_cons, hm] using hrest
        | some m =>
            have hid := matchComponent_flathub_id hm
            simpa [create_mapping, List.filterMap_cons, hm, List.filter_cons, hid]
              using hrest
      · have hkid : k ≠ id := by
          intro hk
          subst hk
          exact hnd.1 (List.mem_map.mpr ⟨(k, comp), hmem', rfl⟩)
        cases hm : matchComponent nixpkgs_packages desktop_id_mapping k with
        | none =>
            simpa [create_mapping, List.filterMap_cons, hm] using ih hnd.2 hmem'
        | some m =>
            have hid := matchComponent_flathub_id hm
            have hne : ¬ (m.flathub_id = id) := by rw [hid]; exact hkid
            simpa [create_mapping, List.filterMap_cons, hm, List.filter_cons, hne]
              using ih hnd.2 hmem'

/-! ### Claim theorems: the Matcher (C1–C4) -/

/-- C1: after the stub-seeding step of `main`, every registry identity in
the curated table's value set that is absent from the live snapshot is
present as a stub with version `"unknown"`; consequently every component
whose identity is a curated key yields exactly one correspondence, with
confidence exactly `1.0` (and the stub's version `"unknown"` when the
target was absent from the live snapshot). -/
theorem curated_identity_always_matches
    (flathub_components : Dict FlathubComponent) (nixpkgs_packages : Dict NixPackage)
    (desktop_id_mapping : Dict String) (id : String) (comp : FlathubComponent)
    (attr : String)
    (hnd : (flathub_components.map Prod.fst).Nodup)
    (hmem : (id, comp) ∈ flathub_components)
    (hres : Dict.find? desktop_id_mapping id = some attr) :
    (Dict.find? nixpkgs_packages attr = none →
      Dict.find? (seed_packages nixpkgs_packages desktop_id_mapping) attr
        = some { attr := attr, version := "unknown" }) ∧
    (create_mapping flathub_components
        (seed_packages nixpkgs_packages desktop_id_mapping) desktop_id_mapping).filter
        (fun m => m.flathub_id = id)
      = [{ flathub_id := id, nixpkgs_attr := attr
           nixpkgs_version :=
             match Dict.find? nixpkgs_packages attr with
             | some pkg => pkg.version
             | none => "unknown"
           confidence := 1 }] := by
  have hval : attr ∈ desktop_id_mapping.map Prod.snd :=
    List.mem_map.mpr ⟨(id, attr), Dict.find?_mem hres, rfl⟩
  refine ⟨fun hnone => seed_packages_find?_stub desktop_id_mapping hval hnone, ?_⟩
  rw [create_mapping_filter_eq hnd hmem]
  cases hn : Dict.find? nixpkgs_packages attr with
  | some pkg =>
      have hsome : (Dict.find? nixpkgs_packages attr).isSome := by rw [hn]; rfl
      have hsame := seed_packages_find?_of_isSome desktop_id_mapping hsome
      rw [hn] at hsame
      simp [matchComponent, curated_match, hres, hsame, Option.toList]
  | none =>
      have hs := seed_packages_find?_stub desktop_id_mapping hval hn
      simp [matchComponent, curated_match, hres, hs, Option.toList]

/-- C2: when the component identity is a curated key and the resolved
attribute is present in the package mapping, the matcher emits the
curated correspondence (confidence `1.0`, that package's version); when
the resolved attribute is absent it does not fail and emits no curated
correspondence, falling through to the heuristic rule for that
component. -/
theorem curated_rule_hit_or_fallthrough
    (flathub_components : Dict FlathubComponent) (nixpkgs_packages : Dict NixPackage)
    (desktop_id_mapping : Dict String) (id : String) (comp : FlathubComponent)
    (attr : String)
    (hnd : (flathub_components.map Prod.fst).Nodup)
    (hmem : (id, comp) ∈ flathub_components)
    (hres : Dict.find? desktop_id_mapping id = some attr) :
    (∀ pkg, Dict.find? nixpkgs_packages attr = some pkg →
      (create_mapping flathub_components nixpkgs_packages desktop_id_mapping).filter
          (fun m => m.flathub_id = id)
        = [{ flathub_id := id, nixpkgs_attr := attr, nixpkgs_version := pkg.version
             confidence := 1 }]) ∧
    (Dict.find? nixpkgs_packages attr = none →
      (create_mapping flathub_components nixpkgs_packages desktop_id_mapping).filter
          (fun m => m.flathub_id = id)
        = (heuristic_match nixpkgs_packages id).toList) := by
  constructor
  · intro pkg hn
    rw [create_mapping_filter_eq hnd hmem]
    simp [matchComponent, curated_match, hres, hn, Option.toList]
  · intro hn
    rw [create_mapping_filter_eq hnd hmem]
    simp [matchComponent, curated_match, hres, hn]

/-- C3, counterexample: the claim asserts that whenever the lowercased
last dot-segment of an unmatched identity is a key of the package
mapping, exactly one correspondence with confidence `0.8` is emitted.
For identity `"foo."` the last segment is empty; with the empty string
as a registry key the premise of the claim holds, yet the matcher
produces no correspondence at all, because the source guards the lookup
with `if app_name and ...`. -/
theorem heuristic_empty_segment_counterexample :
    Dict.find? ([] : Dict String) "foo." = none ∧
    Dict.contains ([("", { attr := "", version := "1.0" })] : Dict NixPackage)
      (py_lower (lastSegment "foo.")) = true ∧
    create_mapping [("foo.", placeholder_component)]
      ([("", { attr := "", version := "1.0" })] : Dict NixPackage) [] = [] :=
  ⟨rfl, by decide, by decide⟩

/-- C3, amended: for a component not matched by the curated rule, if the
lowercased last dot-segment of its identity is **non-empty** and is a key
of the package mapping, exactly one correspondence is produced, with
confidence exactly `0.8` and that package's version; otherwise (including
the empty-segment case, even when `""` is a registry key) no
correspondence is produced. -/
theorem heuristic_rule_amended
    (flathub_components : Dict FlathubComponent) (nixpkgs_packages : Dict NixPackage)
    (desktop_id_mapping : Dict String) (id : String) (comp : FlathubComponent)
    (hnd : (flathub_components.map Prod.fst).Nodup)
    (hmem : (id, comp) ∈ flathub_components)
    (hcur : curated_match nixpkgs_packages desktop_id_mapping id = none) :
    (∀ pkg, py_lower (lastSegment id) ≠ "" →
      Dict.find? nixpkgs_packages (py_lower (lastSegment id)) = some pkg →
      (create_mapping flathub_components nixpkgs_packages desktop_id_mapping).filter
          (fun m => m.flathub_id = id)
        = [{ flathub_id := id, nixpkgs_attr := py_lower (lastSegment id)
             nixpkgs_version := pkg.version, confidence := (0.8 : Rat) }]) ∧
    ((py_lower (lastSegment id) = "" ∨
        Dict.find? nixpkgs_packages (py_lower (lastSegment id)) = none) →
      (create_mapping flathub_components nixpkgs_packages desktop_id_mapping).filter
          (fun m => m.flathub_id = id) = []) := by
  constructor
  · intro pkg hne hn
    rw [create_mapping_filter_eq hnd hmem]
    simp [matchComponent, hcur, heuristic_match, hne, hn, Option.toList]
  · intro hdisj
    rw [create_mapping_filter_eq hnd hmem]
    have hh : heuristic_match nixpkgs_packages id = none := by
      rcases hdisj with h | h
      · simp [heuristic_match, h]
      · by_cases ha : py_lower (lastSegment id) = ""
        · simp [heuristic_match, ha]
        · simp [heuristic_match, ha, h]
    simp [matchComponent, hcur, hh]

/-- C4: for every input, the output list follows the iteration order of
the component mapping (its identities form a sublist of the component
keys); with duplicate-free keys no two correspondences share a source
identity; and every confidence is exactly `1.0` or exactly `0.8`. -/
theorem matcher_output_invariants
    (flathub_components : Dict FlathubComponent) (nixpkgs_packages : Dict NixPackage)
    (desktop_id_mapping : Dict String)
    (hnd : (flathub_components.map Prod.fst).Nodup) :
    List.Sublist
      ((create_mapping flathub_components nixpkgs_packages desktop_id_mapping).map
        Mapping.flathub_id)
      (flathub_components.map Prod.fst) ∧
    (create_mapping flathub_components nixpkgs_packages desktop_id_mapping).Pairwise
      (fun a b => a.flathub_id ≠ b.flathub_id) ∧
    ∀ m ∈ create_mapping flathub_components nixpkgs_packages desktop_id_mapping,
      m.confidence = 1 ∨ m.confidence = (0.8 : Rat) := by
  refine ⟨create_mapping_map_sublist _ _ _, ?_, ?_⟩
  · have hnd' :
        ((create_mapping flathub_components nixpkgs_packages desktop_id_mapping).map
          Mapping.flathub_id).Nodup :=
      hnd.sublist (create_mapping_map_sublist _ _ _)
    exact List.pairwise_map.mp hnd'
  · intro m hm
    simp only [create_mapping, List.mem_filterMap] at hm
    obtain ⟨p, _, hmp⟩ := hm
    exact matchComponent_confidence hmp

/-! ### Claim theorems: the report (C8–C9) and emitter lookups (C10) -/

/-- C8: the coverage percentage equals `100 × |mappings| / |components|`,
and is `0` for an empty component mapping — the guard in the source makes
the computation total. -/
theorem coverage_percent_spec (mappings : List Mapping)
    (flathub_components : Dict FlathubComponent) :
    coverage_percent mappings flathub_components =
      (if flathub_components.length = 0 then 0
       else 100 * (mappings.length : Rat) / (flathub_components.length : Rat)) := by
  unfold coverage_percent
  rcases flathub_components with _ | ⟨p, rest⟩
  · simp
  · simp only [List.isEmpty_cons, List.length_cons, if_neg (Nat.succ_ne_zero _),
      Bool.false_eq_true]
    rw [if_neg (by simp)]
    ring

/-- C9: the unmatched sample holds at most `20` entries, each drawn from
the first `100` components in iteration order, and each sampled
component's key matches no correspondence. -/
theorem unmapped_sample_spec (mappings : List Mapping)
    (flathub_components : Dict FlathubComponent) :
    (unmapped_popular mappings flathub_components).length ≤ 20 ∧
    ∀ e ∈ unmapped_popular mappings flathub_components,
      ∃ p ∈ flathub_components.take 100,
        e = (p.2.id, p.2.name) ∧ ∀ m ∈ mappings, m.flathub_id ≠ p.1 := by
  constructor
  · exact List.length_take_le _ _
  · intro e he
    unfold unmapped_popular at he
    have he' := List.mem_of_mem_take he
    obtain ⟨p, hp, hpe⟩ := List.mem_map.mp he'
    have hpf := List.mem_filter.mp hp
    refine ⟨p, hpf.1, hpe.symm, ?_⟩
    intro m hm hmeq
    have hnone := hpf.2
    simp at hnone
    exact hnone m hm hmeq

/-- C10: every correspondence the matcher emits carries a source identity
that is a key of the component mapping, so the emitter's
missing-component skip branch never fires and the report's display-name
lookup never falls back to the placeholder component. -/
theorem correspondence_component_exists
    (flathub_components : Dict FlathubComponent) (nixpkgs_packages : Dict NixPackage)
    (desktop_id_mapping : Dict String) (m : Mapping)
    (hm : m ∈ create_mapping flathub_components nixpkgs_packages desktop_id_mapping) :
    ∃ comp, Dict.find? flathub_components m.flathub_id = some comp ∧
      report_flathub_name flathub_components m = comp.name := by
  simp only [create_mapping, List.mem_filterMap] at hm
  obtain ⟨p, hp, hmp⟩ := hm
  have hid := matchComponent_flathub_id hmp
  have hkey : m.flathub_id ∈ Dict.keys flathub_components := by
    rw [hid]
    exact List.mem_map.mpr ⟨p, hp, rfl⟩
  obtain ⟨comp, hcomp⟩ :=
    Option.isSome_iff_exists.mp (Dict.find?_isSome_of_mem_keys hkey)
  exact ⟨comp, hcomp, by simp [report_flathub_name, Dict.getD, hcomp]⟩

/-! ### Witnesses for the Matcher and report theorems -/

/-- Witness for C1, the spec's end-to-end example (live snapshot holds
firefox at version 128.0). -/
theorem curated_identity_always_matches_witness :
    (Dict.find? ([("firefox", { attr := "firefox", version := "128.0" })] : Dict NixPackage)
        "firefox" = none →
      Dict.find? (seed_packages [("firefox", { attr := "firefox", version := "128.0" })]
          [("org.mozilla.firefox", "firefox")]) "firefox"
        = some { attr := "firefox", version := "unknown" }) ∧
    (create_mapping [("org.mozilla.firefox", placeholder_component)]
        (seed_packages [("firefox", { attr := "firefox", version := "128.0" })]
          [("org.mozilla.firefox", "firefox")])
        [("org.mozilla.firefox", "firefox")]).filter
        (fun m => m.flathub_id = "org.mozilla.firefox")
      = [{ flathub_id := "org.mozilla.firefox", nixpkgs_attr := "firefox"
           nixpkgs_version :=
             match Dict.find? ([("firefox", { attr := "firefox", version := "128.0" })] :
                 Dict NixPackage) "firefox" with
             | some pkg => pkg.version
             | none => "unknown"
           confidence := 1 }] :=
  curated_identity_always_matches
    [("org.mozilla.firefox", placeholder_component)]
    [("firefox", { attr := "firefox", version := "128.0" })]
    [("org.mozilla.firefox", "firefox")]
    "org.mozilla.firefox" placeholder_component "firefox"
    (by decide) (List.mem_singleton_self _) (by decide)

/-- Witness for C2: the curated hit emits the live version. -/
theorem curated_rule_hit_or_fallthrough_witness :
    (create_mapping [("org.mozilla.firefox", placeholder_component)]
        ([("firefox", { attr := "firefox", version := "128.0" })] : Dict NixPackage)
        [("org.mozilla.firefox", "firefox")]).filter
        (fun m => m.flathub_id = "org.mozilla.firefox")
      = [{ flathub_id := "org.mozilla.firefox", nixpkgs_attr := "firefox"
           nixpkgs_version := "128.0", confidence := 1 }] :=
  (curated_rule_hit_or_fallthrough
    [("org.mozilla.firefox", placeholder_component)]
    [("firefox", { attr := "firefox", version := "128.0" })]
    [("org.mozilla.firefox", "firefox")]
    "org.mozilla.firefox" placeholder_component "firefox"
    (by decide) (List.mem_singleton_self _) (by decide)).1
    { attr := "firefox", version := "128.0" } (by decide)

/-- Witness for the amended C3, the spec's VLC example. -/
theorem heuristic_rule_amended_witness :
    (create_mapping [("org.videolan.VLC", placeholder_component)]
        ([("vlc", { attr := "vlc", version := "3.0.20" })] : Dict NixPackage) []).filter
        (fun m => m.flathub_id = "org.videolan.VLC")
      = [{ flathub_id := "org.videolan.VLC", nixpkgs_attr := "vlc"
           nixpkgs_version := "3.0.20", confidence := (0.8 : Rat) }] :=
  (heuristic_rule_amended
    [("org.videolan.VLC", placeholder_component)]
    [("vlc", { attr := "vlc", version := "3.0.20" })] []
    "org.videolan.VLC" placeholder_component
    (by decide) (List.mem_singleton_self _) (by decide)).1
    { attr := "vlc", version := "3.0.20" } (by decide) (by decide)

/-- Witness for C4 on a two-component input with one heuristic hit. -/
theorem matcher_output_invariants_witness :
    List.Sublist
      ((create_mapping
          [("org.mozilla.firefox", placeholder_component),
           ("org.videolan.VLC", placeholder_component)]
          ([("vlc", { attr := "vlc", version := "3.0.20" })] : Dict NixPackage)
          []).map Mapping.flathub_id)
      ["org.mozilla.firefox", "org.videolan.VLC"] ∧
    (create_mapping
        [("org.mozilla.firefox", placeholder_component),
         ("org.videolan.VLC", placeholder_component)]
        ([("vlc", { attr := "vlc", version := "3.0.20" })] : Dict NixPackage)
        []).Pairwise (fun a b => a.flathub_id ≠ b.flathub_id) ∧
    ∀ m ∈ create_mapping
        [("org.mozilla.firefox", placeholder_component),
         ("org.videolan.VLC", placeholder_component)]
        ([("vlc", { attr := "vlc", version := "3.0.20" })] : Dict NixPackage) [],
      m.confidence = 1 ∨ m.confidence = (0.8 : Rat) :=
  matcher_output_invariants
    [("org.mozilla.firefox", placeholder_component),
     ("org.videolan.VLC", placeholder_component)]
    [("vlc", { attr := "vlc", version := "3.0.20" })] [] (by decide)

/-- Witness for C9, the spec's unmatched example: no mappings, one
component, which must therefore be sampled. -/
theorem unmapped_sample_spec_witness :
    ∃ p ∈ ([("com.example.Unknown", placeholder_component)] :
        Dict FlathubComponent).take 100,
      (("", "") : String × String) = (p.2.id, p.2.name) ∧
        ∀ m ∈ ([] : List Mapping), m.flathub_id ≠ p.1 :=
  (unmapped_sample_spec [] [("com.example.Unknown", placeholder_component)]).2
    ("", "") (by decide)

/-- Witness for C10 on the heuristic VLC correspondence. -/
theorem correspondence_component_exists_witness :
    ∃ comp,
      Dict.find? ([("org.videolan.VLC", placeholder_component)] : Dict FlathubComponent)
          ({ flathub_id := "org.videolan.VLC", nixpkgs_attr := "vlc"
             nixpkgs_version := "3.0.20", confidence := (0.8 : Rat) } : Mapping).flathub_id
        = some comp ∧
      report_flathub_name [("org.videolan.VLC", placeholder_component)]
          { flathub_id := "org.videolan.VLC", nixpkgs_attr := "vlc"
            nixpkgs_version := "3.0.20", confidence := (0.8 : Rat) }
        = comp.name :=
  correspondence_component_exists
    [("org.videolan.VLC", placeholder_component)]
    [("vlc", { attr := "vlc", version := "3.0.20" })] []
    { flathub_id := "org.videolan.VLC", nixpkgs_attr := "vlc"
      nixpkgs_version := "3.0.20", confidence := (0.8 : Rat) }
    (List.Mem.head _)

/-! ### Insertion lemmas for the parser -/

theorem Dict.mem_keys_of_find?_isSome {α : Type} {d : Dict α} {k : String}
    (h : (Dict.find? d k).isSome) : k ∈ Dict.keys d := by
  by_contra hk
  rw [Dict.find?_eq_none_of_not_mem_keys hk] at h
  simp at h

theorem Dict.keys_insert {α : Type} (d : Dict α) (k : String) (v : α) :
    Dict.keys (Dict.insert d k v) =
      if Dict.contains d k then Dict.keys d else Dict.keys d ++ [k] := by
  unfold Dict.insert
  split
  · simp only [Dict.keys, List.map_map]
    exact List.map_congr_left (fun p _ => by by_cases h : p.1 = k <;> simp [h])
  · simp [Dict.keys]

theorem Dict.mem_keys_insert {α : Type} {d : Dict α} {k k' : String} {v : α} :
    k' ∈ Dict.keys (Dict.insert d k v) ↔ k' = k ∨ k' ∈ Dict.keys d := by
  rw [Dict.keys_insert]
  by_cases h : Dict.contains d k
  · rw [if_pos h]
    constructor
    · exact Or.inr
    · rintro (rfl | h')
      · exact Dict.mem_keys_of_find?_isSome h
      · exact h'
  · rw [if_neg h]
    simp [or_comm]

/-! ### Claim theorems: the Source Parser (C6–C7) -/

/-- C6, counterexample: the claim asserts that entries whose identity is
empty after suffix-stripping are skipped.  An entry of recognized kind
with raw id `".desktop"` has a non-empty id before stripping (so the
code's emptiness check passes) and an empty identity after stripping —
yet it is retained, stored under the empty identity. -/
theorem parser_empty_identity_counterexample :
    py_strip (dot_desktop_entry.findtextD "id" "") = ".desktop" ∧
    removesuffix (py_strip (dot_desktop_entry.findtextD "id" "")) ".desktop" = "" ∧
    Dict.keys (parse_flathub_appstream [dot_desktop_entry]) = [""] :=
  ⟨by decide, by decide, by decide⟩

/-- C6, amended: the parser output contains exactly the entries of
declared kind `desktop` or `desktop-application` whose *raw* (trimmed)
identity is non-empty — the emptiness test happens before
suffix-stripping, so an entry with raw id `".desktop"` is retained under
the empty identity; all other entries are silently skipped. -/
theorem parser_retention_amended (comps : List XmlElement) (k : String) :
    k ∈ Dict.keys (parse_flathub_appstream comps) ↔
      ∃ c ∈ comps, entry_retained c ∧ entry_key c = k := by
  have aux : ∀ (cs : List XmlElement) (acc : Dict FlathubComponent) (k : String),
      k ∈ Dict.keys (cs.foldl parse_step acc) ↔
        k ∈ Dict.keys acc ∨ ∃ c ∈ cs, entry_retained c ∧ entry_key c = k := by
    intro cs
    induction cs with
    | nil => intro acc k; simp
    | cons c cs ih =>
        intro acc k
        rw [List.foldl_cons, ih]
        by_cases ht : (c.getAttrD "type" = "desktop" ∨
            c.getAttrD "type" = "desktop-application")
        · by_cases hid : py_strip (c.findtextD "id" "") ≠ ""
          · have hstep : parse_step acc c
                = acc.insert (entry_key c) (mkComponent c (entry_key c)) := by
              unfold parse_step
              rw [if_pos ht, if_pos hid]
              rfl
            rw [hstep, Dict.mem_keys_insert]
            constructor
            · rintro ((rfl | hacc) | ⟨c', hc', hr⟩)
              · exact Or.inr ⟨c, List.mem_cons_self _ _, ⟨ht, hid⟩, rfl⟩
              · exact Or.inl hacc
              · exact Or.inr ⟨c', List.mem_cons_of_mem _ hc', hr⟩
            · rintro (hacc | ⟨c', hc', hr⟩)
              · exact Or.inl (Or.inr hacc)
              · rcases List.mem_cons.mp hc' with rfl | hc''
                · exact Or.inl (Or.inl hr.2.symm)
                · exact Or.inr ⟨c', hc'', hr⟩
          · have hstep : parse_step acc c = acc := by
              unfold parse_step
              rw [if_pos ht, if_neg hid]
            rw [hstep]
            constructor
            · rintro (hacc | ⟨c', hc', hr⟩)
              · exact Or.inl hacc
              · exact Or.inr ⟨c', List.mem_cons_of_mem _ hc', hr⟩
            · rintro (hacc | ⟨c', hc', hr⟩)
              · exact Or.inl hacc
              · rcases List.mem_cons.mp hc' with rfl | hc''
                · exact absurd (not_not.mp hid) hr.1.2
                · exact Or.inr ⟨c', hc'', hr⟩
        · have hstep : parse_step acc c = acc := by
            unfold parse_step
            rw [if_neg ht]
          rw [hstep]
          constructor
          · rintro (hacc | ⟨c', hc', hr⟩)
            · exact Or.inl hacc
            · exact Or.inr ⟨c', List.mem_cons_of_mem _ hc', hr⟩
          · rintro (hacc | ⟨c', hc', hr⟩)
            · exact Or.inl hacc
            · rcases List.mem_cons.mp hc' with rfl | hc''
              · exact absurd hr.1.1 ht
              · exact Or.inr ⟨c', hc'', hr⟩
  rw [parse_flathub_appstream, aux]
  simp [Dict.keys]

/-- Witness for the amended C6: the spec's firefox entry is retained
under its suffix-stripped identity. -/
theorem parser_retention_amended_witness :
    "org.mozilla.firefox" ∈ Dict.keys (parse_flathub_appstream
      [XmlElement.mk "component" [("type", "desktop-application")] none none
        [XmlElement.mk "id" [] (some "org.mozilla.firefox.desktop") none []]]) :=
  (parser_retention_amended _ _).mpr
    ⟨_, List.mem_singleton_self _, by decide, by decide⟩

/-- `resolve_icon` performs one `icon_step` per list element, stopping at
the first that fires. -/
theorem resolve_icon_cons (i : XmlElement) (rest : List XmlElement) :
    resolve_icon (i :: rest) =
      match icon_step i with
      | some u => some u
      | none => resolve_icon rest := by
  by_cases h1 : i.getAttr "type" = some "remote" ∧ i.text.getD "" ≠ ""
  · obtain ⟨s, hs⟩ : ∃ s, i.text = some s := by
      cases ht : i.text with
      | none => rw [ht] at h1; simp at h1
      | some s => exact ⟨s, rfl⟩
    have hs' : s ≠ "" := by
      have := h1.2
      rw [hs] at this
      simpa using this
    simp [resolve_icon, icon_step, h1, hs, hs']
  · by_cases h2 : i.getAttr "type" = some "cached" ∧ i.text.getD "" ≠ ""
    · simp [resolve_icon, icon_step, h1, h2]
    · simp [resolve_icon, icon_step, h1, h2]

/-- No element of `pre` fires, so resolution skips over it. -/
theorem resolve_icon_skip (pre rest : List XmlElement) :
    (∀ j ∈ pre, icon_step j = none) →
    resolve_icon (pre ++ rest) = resolve_icon rest := by
  induction pre with
  | nil => intro _; rfl
  | cons j pre ih =>
      intro hpre
      rw [List.cons_append, resolve_icon_cons, hpre j (List.mem_cons_self _ _)]
      exact ih fun j' hj' => hpre j' (List.mem_cons_of_mem _ hj')

/-- When no icon reference fires, no icon URL is produced. -/
theorem resolve_icon_eq_none (icons : List XmlElement) :
    (∀ j ∈ icons, icon_step j = none) → resolve_icon icons = none := by
  induction icons with
  | nil => intro _; rfl
  | cons i rest ih =>
      intro hall
      rw [resolve_icon_cons, hall i (List.mem_cons_self _ _)]
      exact ih fun j hj => hall j (List.mem_cons_of_mem _ hj)

/-- C7, counterexample: the claim asserts a remote icon is preferred
whenever one is present.  In `cached_then_remote_entry` a remote icon
with a non-empty value is present, yet the parser resolves the icon to
the URL composed from the *earlier* cached reference — the loop takes
the first icon of either kind in document order. -/
theorem icon_remote_not_preferred_counterexample :
    (cached_then_remote_entry.children.countP
        (fun i => i.tag = "icon" ∧ i.getAttr "type" = some "remote" ∧
          i.text.getD "" ≠ "")) = 1 ∧
    ((parse_flathub_appstream [cached_then_remote_entry]).find? "org.x.App").map
        FlathubComponent.icon_url
      = some (some (FLATHUB_ICONS_BASE_URL ++ "/128x128/foo.png")) ∧
    FLATHUB_ICONS_BASE_URL ++ "/128x128/foo.png" ≠ "http://example.com/icon.png" :=
  ⟨by decide, by decide, by decide⟩

/-- C7, amended: icon resolution scans the direct `icon` children in
document order and takes the first that fires — a remote reference with
a non-empty value yields that value, a cached reference with a non-empty
value yields the composed base/`128x128`/value URL — and yields no icon
when no reference fires.  In particular a cached reference occurring
before a remote one is chosen, so remote is *not* globally preferred. -/
theorem resolve_icon_first_match (icons : List XmlElement) :
    ((∀ j ∈ icons, icon_step j = none) → resolve_icon icons = none) ∧
    (∀ pre i post, icons = pre ++ i :: post →
      (∀ j ∈ pre, icon_step j = none) → icon_step i ≠ none →
      resolve_icon icons = icon_step i ∧
      (i.getAttr "type" = some "remote" ∧ i.text.getD "" ≠ "" →
        icon_step i = i.text) ∧
      (i.getAttr "type" = some "cached" ∧ i.text.getD "" ≠ "" →
        icon_step i = some (FLATHUB_ICONS_BASE_URL ++ "/128x128/" ++ i.text.getD ""))) := by
  refine ⟨resolve_icon_eq_none icons, ?_⟩
  intro pre i post heq hpre hi
  subst heq
  refine ⟨?_, fun h1 => by simp [icon_step, h1], fun h2 => ?_⟩
  · rw [resolve_icon_skip pre _ hpre, resolve_icon_cons]
    cases hs : icon_step i with
    | none => exact absurd hs hi
    | some u => rfl
  · have hne : ¬ ((some "cached" : Option String) = some "remote") := by decide
    simp [icon_step, h2.1, h2.2, hne]

/-! ### Transformer lemmas (C5) -/

theorem tag_setAttr (e : XmlElement) (k v : String) : (e.setAttr k v).tag = e.tag := rfl

theorem tag_setText (e : XmlElement) (s : String) : (e.setText s).tag = e.tag := rfl

theorem text_setText (e : XmlElement) (s : String) : (e.setText s).text = some s := rfl

theorem getAttr_setText (e : XmlElement) (s k : String) :
    (e.setText s).getAttr k = e.getAttr k := rfl

theorem children_withChildren (e : XmlElement) (cs : List XmlElement) :
    (e.withChildren cs).children = cs := rfl

theorem find?_append_eq {α : Type} (l₁ l₂ : List α) (p : α → Bool) :
    (l₁ ++ l₂).find? p =
      match l₁.find? p with
      | some x => some x
      | none => l₂.find? p := by
  induction l₁ with
  | nil => rfl
  | cons a l ih =>
      by_cases ha : p a = true
      · rw [List.cons_append, List.find?_cons_of_pos _ ha, List.find?_cons_of_pos _ ha]
      · rw [List.cons_append, List.find?_cons_of_neg _ (by simpa using ha),
          List.find?_cons_of_neg _ (by simpa using ha), ih]

theorem find?_map_pred {α : Type} (g : α → α) (q : α → Bool) (cs : List α)
    (hg : ∀ c, q (g c) = q c) :
    (cs.map g).find? q = (cs.find? q).map g := by
  induction cs with
  | nil => rfl
  | cons c cs ih =>
      by_cases hc : q c = true
      · rw [List.map_cons, List.find?_cons_of_pos _ (by rw [hg]; exact hc),
          List.find?_cons_of_pos _ hc]
        rfl
      · rw [List.map_cons, List.find?_cons_of_neg _ (by rw [hg]; simpa using hc),
          List.find?_cons_of_neg _ (by simpa using hc)]
        exact ih

theorem filter_map_pred {α : Type} (g : α → α) (q : α → Bool) (cs : List α)
    (hg : ∀ c, q (g c) = q c) :
    (cs.map g).filter q = (cs.filter q).map g := by
  induction cs with
  | nil => rfl
  | cons c cs ih =>
      by_cases hc : q c = true
      · simp only [List.map_cons, List.filter_cons, hg, hc, if_true, ih]
      · simp only [List.map_cons, List.filter_cons, hg, hc, Bool.false_eq_true,
          if_false, ih]

theorem updateFirst_none {p : XmlElement → Bool} {f : XmlElement → XmlElement}
    {cs : List XmlElement} (h : updateFirst p f cs = none) : ∀ c ∈ cs, p c = false := by
  induction cs with
  | nil => intro c hc; simp at hc
  | cons c cs ih =>
      intro c' hc'
      rw [updateFirst] at h
      by_cases hp : p c = true
      · rw [if_pos hp] at h; simp at h
      · rw [if_neg hp] at h
        rcases List.mem_cons.mp hc' with rfl | hmem
        · simpa using hp
        · cases hu : updateFirst p f cs with
          | some cs0 => rw [hu] at h; simp at h
          | none => exact ih hu c' hmem

theorem updateFirst_some_find? {p : XmlElement → Bool} {f : XmlElement → XmlElement}
    {cs cs' : List XmlElement} (h : updateFirst p f cs = some cs')
    (hpf : ∀ c, p c = true → p (f c) = true) :
    ∃ c0, cs.find? p = some c0 ∧ cs'.find? p = some (f c0) := by
  induction cs generalizing cs' with
  | nil => simp [updateFirst] at h
  | cons c cs ih =>
      rw [updateFirst] at h
      by_cases hp : p c = true
      · rw [if_pos hp] at h
        cases h
        exact ⟨c, List.find?_cons_of_pos _ hp,
          List.find?_cons_of_pos _ (hpf c hp)⟩
      · rw [if_neg hp] at h
        cases hu : updateFirst p f cs with
        | none => rw [hu] at h; simp at h
        | some cs0 =>
            rw [hu] at h
            simp only [Option.map_some'] at h
            cases h
            obtain ⟨c0, h1, h2⟩ := ih hu
            refine ⟨c0, ?_, ?_⟩
            · rw [List.find?_cons_of_neg _ (by simpa using hp)]; exact h1
            · rw [List.find?_cons_of_neg _ (by simpa using hp)]; exact h2

theorem updateFirst_some_other {p q : XmlElement → Bool} {f : XmlElement → XmlElement}
    {cs cs' : List XmlElement} (h : updateFirst p f cs = some cs')
    (hq : ∀ c, p c = true → q c = false)
    (hqf : ∀ c, p c = true → q (f c) = false) :
    cs'.find? q = cs.find? q ∧ cs'.filter q = cs.filter q := by
  induction cs generalizing cs' with
  | nil => simp [updateFirst] at h
  | cons c cs ih =>
      rw [updateFirst] at h
      by_cases hp : p c = true
      · rw [if_pos hp] at h
        cases h
        constructor
        · rw [List.find?_cons_of_neg _ (by simp [hqf c hp]),
            List.find?_cons_of_neg _ (by simp [hq c hp])]
        · simp only [List.filter_cons, hqf c hp, hq c hp, Bool.false_eq_true, if_false]
      · rw [if_neg hp] at h
        cases hu : updateFirst p f cs with
        | none => rw [hu] at h; simp at h
        | some cs0 =>
            rw [hu] at h
            simp only [Option.map_some'] at h
            cases h
            obtain ⟨h1, h2⟩ := ih hu
            constructor
            · by_cases hqc : q c = true
              · rw [List.find?_cons_of_pos _ hqc, List.find?_cons_of_pos _ hqc]
              · rw [List.find?_cons_of_neg _ (by simpa using hqc),
                  List.find?_cons_of_neg _ (by simpa using hqc)]
                exact h1
            · simp only [List.filter_cons, h2]

theorem find?_replace_self (l : List (String × String)) (k v : String)
    (h : l.any (fun p => p.1 = k) = true) :
    (l.map (fun p => if p.1 = k then (k, v) else p)).find? (fun p => p.1 = k)
      = some (k, v) := by
  induction l with
  | nil => simp at h
  | cons p l ih =>
      by_cases hp : p.1 = k
      · rw [List.map_cons, if_pos hp, List.find?_cons_of_pos _ (by simp)]
      · rw [List.map_cons, if_neg hp, List.find?_cons_of_neg _ (by simpa using hp)]
        have h' : l.any (fun p => p.1 = k) = true := by
          simpa [List.any_cons, hp] using h
        exact ih h'

theorem find?_replace_other (l : List (String × String)) (k k' v : String)
    (hk : k' ≠ k) :
    (l.map (fun p => if p.1 = k then (k, v) else p)).find? (fun p => p.1 = k')
      = l.find? (fun p => p.1 = k') := by
  induction l with
  | nil => rfl
  | cons p l ih =>
      by_cases hp : p.1 = k
      · have hp' : ¬ (p.1 = k') := by rw [hp]; exact Ne.symm hk
        rw [List.map_cons, if_pos hp,
          List.find?_cons_of_neg _ (by simp [Ne.symm hk]),
          List.find?_cons_of_neg _ (by simpa using hp')]
        exact ih
      · rw [List.map_cons, if_neg hp]
        by_cases hq : p.1 = k'
        · rw [List.find?_cons_of_pos _ (by simpa using hq),
            List.find?_cons_of_pos _ (by simpa using hq)]
        · rw [List.find?_cons_of_neg _ (by simpa using hq),
            List.find?_cons_of_neg _ (by simpa using hq)]
          exact ih

theorem getAttr_setAttr_self (e : XmlElement) (k v : String) :
    (e.setAttr k v).getAttr k = some v := by
  unfold XmlElement.setAttr XmlElement.getAttr
  by_cases h : e.attrs.any (fun p => p.1 = k) = true
  · rw [if_pos h]
    simp only [XmlElement.attrs_mk]
    rw [find?_replace_self e.attrs k v h]
    rfl
  · rw [if_neg h]
    simp only [XmlElement.attrs_mk]
    rw [find?_append_eq]
    have hnone : e.attrs.find? (fun p => p.1 = k) = none := by
      rw [List.find?_eq_none]
      intro x hx hpx
      exact h (List.any_eq_true.mpr ⟨x, hx, hpx⟩)
    rw [hnone]
    simp [List.find?]

theorem getAttr_setAttr_other (e : XmlElement) (k k' v : String) (hk : k' ≠ k) :
    (e.setAttr k v).getAttr k' = e.getAttr k' := by
  unfold XmlElement.setAttr XmlElement.getAttr
  by_cases h : e.attrs.any (fun p => p.1 = k) = true
  · rw [if_pos h]
    simp only [XmlElement.attrs_mk]
    rw [find?_replace_other e.attrs k k' v hk]
  · rw [if_neg h]
    simp only [XmlElement.attrs_mk]
    rw [find?_append_eq]
    cases hf : e.attrs.find? (fun p => p.1 = k') with
    | some x => rfl
    | none => simp [List.find?, Ne.symm hk]

theorem tag_rewrite_icon (component : FlathubComponent) (icon : XmlElement) :
    (rewrite_icon component icon).tag = icon.tag := by
  unfold rewrite_icon
  split <;> rfl

theorem rewrite_icon_rewritten (component : FlathubComponent) (icon : XmlElement)
    (h : icon.getAttrD "type" = "remote" ∨ icon.getAttrD "type" = "cached") :
    (rewrite_icon component icon).getAttr "type" = some "cached" ∧
    (rewrite_icon component icon).getAttr "width" = some "128" ∧
    (rewrite_icon component icon).getAttr "height" = some "128" ∧
    (rewrite_icon component icon).text = some (component.id ++ icon_ext component) := by
  unfold rewrite_icon
  rw [if_pos h]
  refine ⟨?_, ?_, ?_, text_setText _ _⟩
  · rw [getAttr_setText, getAttr_setAttr_other _ _ _ _ (by decide),
      getAttr_setAttr_other _ _ _ _ (by decide)]
    exact getAttr_setAttr_self _ _ _
  · rw [getAttr_setText, getAttr_setAttr_other _ _ _ _ (by decide)]
    exact getAttr_setAttr_self _ _ _
  · rw [getAttr_setText]
    exact getAttr_setAttr_self _ _ _

theorem pkgname_step_find? (mapping : Mapping) (cs : List XmlElement) :
    ((pkgname_step mapping cs).find? (fun c => c.tag = "pkgname")).map XmlElement.text
      = some (some mapping.nixpkgs_attr) := by
  unfold pkgname_step
  cases hu : updateFirst (fun c => c.tag = "pkgname")
      (fun c => c.setText mapping.nixpkgs_attr) cs with
  | some cs' =>
      obtain ⟨c0, _, h2⟩ := updateFirst_some_find? hu
        (fun c hc => by simpa [tag_setText] using hc)
      rw [h2]
      simp [text_setText]
  | none =>
      rw [find?_append_eq]
      have hnone : cs.find? (fun c => c.tag = "pkgname") = none := by
        rw [List.find?_eq_none]
        intro x hx hpx
        rw [updateFirst_none hu x hx] at hpx
        exact absurd hpx (by simp)
      rw [hnone]
      simp [List.find?]

theorem releases_step_find?_releases (mapping : Mapping) (cs : List XmlElement) :
    (releases_step mapping cs).find? (fun c => c.tag = "releases")
      = some (nixpkgs_releases mapping.nixpkgs_version) := by
  unfold releases_step
  cases hu : updateFirst (fun c => c.tag = "releases")
      (fun _ => nixpkgs_releases mapping.nixpkgs_version) cs with
  | some cs' =>
      obtain ⟨c0, _, h2⟩ := updateFirst_some_find? hu
        (fun c _ => by simp [nixpkgs_releases])
      rw [h2]
  | none =>
      rw [find?_append_eq]
      have hnone : cs.find? (fun c => c.tag = "releases") = none := by
        rw [List.find?_eq_none]
        intro x hx hpx
        rw [updateFirst_none hu x hx] at hpx
        exact absurd hpx (by simp)
      rw [hnone]
      simp [List.find?, nixpkgs_releases]

theorem releases_step_find?_other (mapping : Mapping) (cs : List XmlElement)
    (t : String) (ht : t ≠ "releases") :
    (releases_step mapping cs).find? (fun c => c.tag = t)
      = cs.find? (fun c => c.tag = t) := by
  unfold releases_step
  cases hu : updateFirst (fun c => c.tag = "releases")
      (fun _ => nixpkgs_releases mapping.nixpkgs_version) cs with
  | some cs' =>
      exact (updateFirst_some_other hu
        (fun c hc => by simp at hc; simp [hc, Ne.symm ht])
        (fun c _ => by simp [nixpkgs_releases, Ne.symm ht])).1
  | none =>
      rw [find?_append_eq]
      cases hf : cs.find? (fun c => c.tag = t) with
      | some x => rfl
      | none => simp [List.find?, nixpkgs_releases, Ne.symm ht]

theorem pkgname_step_filter_icon (mapping : Mapping) (cs : List XmlElement) :
    (pkgname_step mapping cs).filter (fun c => c.tag = "icon")
      = cs.filter (fun c => c.tag = "icon") := by
  unfold pkgname_step
  cases hu : updateFirst (fun c => c.tag = "pkgname")
      (fun c => c.setText mapping.nixpkgs_attr) cs with
  | some cs' =>
      exact (updateFirst_some_other hu
        (fun c hc => by simp at hc; simp [hc])
        (fun c hc => by simp at hc; simp [tag_setText, hc])).2
  | none =>
      rw [List.filter_append]
      simp [List.filter]

theorem releases_step_filter_icon (mapping : Mapping) (cs : List XmlElement) :
    (releases_step mapping cs).filter (fun c => c.tag = "icon")
      = cs.filter (fun c => c.tag = "icon") := by
  unfold releases_step
  cases hu : updateFirst (fun c => c.tag = "releases")
      (fun _ => nixpkgs_releases mapping.nixpkgs_version) cs with
  | some cs' =>
      exact (updateFirst_some_other hu
        (fun c hc => by simp at hc; simp [hc])
        (fun c _ => by simp [nixpkgs_releases])).2
  | none =>
      rw [List.filter_append]
      simp [List.filter, nixpkgs_releases]

/-! ### Claim theorems: the Transformer (C5) -/

/-- C5, counterexample: the claim asserts every icon of type `remote` or
`cached` *within the fragment* is rewritten to type `cached`.  The
fragment `nested_icon_fragment` holds exactly one icon, of type
`remote`, nested one level deep; after transformation the output still
holds that icon with type `remote` and no `cached` icon at all — the
loop over `elem.findall("icon")` only reaches direct children. -/
theorem transformer_nested_icon_counterexample :
    (nested_icon_component.raw_xml.allElements.countP
        (fun e => e.tag = "icon" ∧ e.getAttrD "type" = "remote")) = 1 ∧
    ((transform_component_xml nested_icon_component nested_icon_mapping).allElements.countP
        (fun e => e.tag = "icon" ∧ e.getAttrD "type" = "cached")) = 0 ∧
    ((transform_component_xml nested_icon_component nested_icon_mapping).allElements.countP
        (fun e => e.tag = "icon" ∧ e.getAttrD "type" = "remote")) = 1 := by
  have hin : nested_icon_component.raw_xml = nested_icon_fragment := rfl
  have htr : transform_component_xml nested_icon_component nested_icon_mapping
      = XmlElement.mk "component" [] none none
          [XmlElement.mk "info" [] none none
            [XmlElement.mk "icon" [("type", "remote")] (some "x") none []],
           XmlElement.mk "pkgname" [] (some "b") none [],
           nixpkgs_releases "9"] := rfl
  have hall1 : nested_icon_fragment.allElements
      = [nested_icon_fragment,
         XmlElement.mk "info" [] none none
           [XmlElement.mk "icon" [("type", "remote")] (some "x") none []],
         XmlElement.mk "icon" [("type", "remote")] (some "x") none []] := by
    simp [nested_icon_fragment, XmlElement.allElements, XmlElement.descendants]
  have hall2 : (XmlElement.mk "component" [] none none
        [XmlElement.mk "info" [] none none
          [XmlElement.mk "icon" [("type", "remote")] (some "x") none []],
         XmlElement.mk "pkgname" [] (some "b") none [],
         nixpkgs_releases "9"]).allElements
      = [XmlElement.mk "component" [] none none
          [XmlElement.mk "info" [] none none
            [XmlElement.mk "icon" [("type", "remote")] (some "x") none []],
           XmlElement.mk "pkgname" [] (some "b") none [],
           nixpkgs_releases "9"],
         XmlElement.mk "info" [] none none
           [XmlElement.mk "icon" [("type", "remote")] (some "x") none []],
         XmlElement.mk "icon" [("type", "remote")] (some "x") none [],
         XmlElement.mk "pkgname" [] (some "b") none [],
         nixpkgs_releases "9",
         XmlElement.mk "release" [("version", "9")] none none []] := by
    simp [XmlElement.allElements, XmlElement.descendants, nixpkgs_releases]
  refine ⟨?_, ?_, ?_⟩
  · rw [hin, hall1]; decide
  · rw [htr, hall2]; decide
  · rw [htr, hall2]; decide

/-- C5, amended: for every matched component and correspondence, the
output fragment's first `pkgname` child carries the registry identity
(the child is appended when absent); its first `releases` child is
replaced wholesale by a section holding exactly one `release` whose
version is the resolved version; and the fragment's **direct-child**
icon references are exactly the original direct-child icons rewritten in
place, where every icon of original type `remote` or `cached` gets type
`cached`, width and height `"128"`, and value `component id ++ ".svg"`
if the component's original icon URL is non-empty and ends in `".svg"`,
else `component id ++ ".png"`.  (Icons nested deeper in the fragment are
not touched — see the counterexample.) -/
theorem transformer_fragment_spec (component : FlathubComponent) (mapping : Mapping) :
    ((transform_component_xml component mapping).children.find?
        (fun c => c.tag = "pkgname")).map XmlElement.text
      = some (some mapping.nixpkgs_attr) ∧
    (transform_component_xml component mapping).children.find?
        (fun c => c.tag = "releases")
      = some (nixpkgs_releases mapping.nixpkgs_version) ∧
    (transform_component_xml component mapping).children.filter
        (fun c => c.tag = "icon")
      = (component.raw_xml.children.filter (fun c => c.tag = "icon")).map
          (rewrite_icon component) ∧
    ∀ icon : XmlElement, icon.tag = "icon" →
      (icon.getAttrD "type" = "remote" ∨ icon.getAttrD "type" = "cached") →
      (rewrite_icon component icon).getAttr "type" = some "cached" ∧
      (rewrite_icon component icon).getAttr "width" = some "128" ∧
      (rewrite_icon component icon).getAttr "height" = some "128" ∧
      (rewrite_icon component icon).text = some (component.id ++ icon_ext component) := by
  have hchildren : (transform_component_xml component mapping).children
      = icons_step component
          (releases_step mapping (pkgname_step mapping component.raw_xml.children)) := rfl
  have hg : ∀ (t : String) (c : XmlElement),
      (decide ((if c.tag = "icon" then rewrite_icon component c else c).tag = t) : Bool)
        = decide (c.tag = t) := by
    intro t c
    by_cases hc : c.tag = "icon"
    · rw [if_pos hc, tag_rewrite_icon]
    · rw [if_neg hc]
  refine ⟨?_, ?_, ?_, fun icon _ h => rewrite_icon_rewritten component icon h⟩
  · rw [hchildren]
    unfold icons_step
    rw [find?_map_pred _ _ _ (hg "pkgname"),
      releases_step_find?_other mapping _ "pkgname" (by decide)]
    have hpkg := pkgname_step_find? mapping component.raw_xml.children
    cases hf : (pkgname_step mapping component.raw_xml.children).find?
        (fun c => c.tag = "pkgname") with
    | none => rw [hf] at hpkg; simp at hpkg
    | some x =>
        rw [hf] at hpkg
        have hxtag : x.tag = "pkgname" := by
          have := List.find?_some hf
          simpa using this
        have hgx : (if x.tag = "icon" then rewrite_icon component x else x) = x := by
          rw [if_neg (by simp [hxtag])]
        simp only [Option.map_some']
        rw [hgx]
        simpa using hpkg
  · rw [hchildren]
    unfold icons_step
    rw [find?_map_pred _ _ _ (hg "releases"), releases_step_find?_releases]
    simp only [Option.map_some']
    rw [if_neg (by simp [nixpkgs_releases])]
  · rw [hchildren]
    unfold icons_step
    rw [filter_map_pred _ _ _ (hg "icon"), releases_step_filter_icon,
      pkgname_step_filter_icon]
    refine List.map_congr_left ?_
    intro c hc
    have hctag : c.tag = "icon" := by
      have := (List.mem_filter.mp hc).2
      simpa using this
    rw [if_pos hctag]

/-- Witness for the amended C5, the spec's round-trip example: a
fragment with a direct `cached` icon and no `pkgname` field. -/
theorem transformer_fragment_spec_witness :
    ((transform_component_xml round_trip_component nested_icon_mapping).children.find?
        (fun c => c.tag = "pkgname")).map XmlElement.text
      = some (some "b") ∧
    (transform_component_xml round_trip_component nested_icon_mapping).children.find?
        (fun c => c.tag = "releases") = some (nixpkgs_releases "9") ∧
    (rewrite_icon round_trip_component
        (XmlElement.mk "icon" [("type", "cached")] (some "a.b.png") none [])).getAttr
        "type" = some "cached" ∧
    (rewrite_icon round_trip_component
        (XmlElement.mk "icon" [("type", "cached")] (some "a.b.png") none [])).text
      = some ("a.b" ++ icon_ext round_trip_component) := by
  have h := transformer_fragment_spec round_trip_component nested_icon_mapping
  have h4 := h.2.2.2 (XmlElement.mk "icon" [("type", "cached")] (some "a.b.png") none [])
    (by decide) (by decide)
  exact ⟨h.1, h.2.1, h4.1, h4.2.2.2⟩

/-- Witness for the amended C7: with a cached icon first and a remote
icon second, the first (cached) one fires. -/
theorem resolve_icon_first_match_witness :
    resolve_icon
        [XmlElement.mk "icon" [("type", "cached")] (some "foo.png") none [],
         XmlElement.mk "icon" [("type", "remote")] (some "http://example.com/icon.png")
           none []]
      = icon_step (XmlElement.mk "icon" [("type", "cached")] (some "foo.png") none []) :=
  (((resolve_icon_first_match _).2 []
      (XmlElement.mk "icon" [("type", "cached")] (some "foo.png") none [])
      [XmlElement.mk "icon" [("type", "remote")] (some "http://example.com/icon.png")
        none []]
      rfl (by simp) (by decide)).1)

end FlathubMapper
